import Mathlib

/-!
Shallow embedding of the Fast-Audiobook pipeline (src/main.py): EPUB chapter
extraction, the per-chapter synthesis loop, WAV-to-MP3 assembly
(`concat_wavs_to_mp3`), the working-directory wipe (`wipe_temp_dir`) and the
driver (`main`), together with theorems checking the specification claims.
-/

namespace FastAudiobook

/-- A decoded audio waveform, as a list of samples. -/
abbrev Waveform := List Int

/-- In-memory audio values built by the pydub calls the code performs:
`fromWav w` is `AudioSegment.from_wav` on a WAV file holding waveform `w`;
`fromMp3Enc s` is `AudioSegment.from_mp3` on an MP3 file that was produced by
exporting segment `s` (one lossy encode-decode round trip of `s`); `append`
is pydub segment concatenation (`+`). -/
inductive Seg : Type
  | fromWav (w : Waveform)
  | fromMp3Enc (s : Seg)
  | append (a b : Seg)
  deriving DecidableEq

/-- File contents in the model: a WAV file with waveform `w`, an MP3 file
holding the export of segment `s`, or any other file. -/
inductive FData : Type
  | wavData (w : Waveform)
  | mp3Data (s : Seg)
  | otherData
  deriving DecidableEq

/-- A directory listing: file names with contents, in listing order. -/
abbrev Dir := List (String × FData)

/-- The filesystem the pipeline touches: the scratch directory `temp`
(`none` when it does not exist) and the current working directory. -/
structure FS where
  temp : Option Dir
  cwd : Dir
  deriving DecidableEq

/-- Observable events (log lines and save calls) emitted by a run. -/
inductive Ev : Type
  | dirMissing
  | wipeError
  | wipeDone
  | noWavFiles
  | chapterError (i : Nat)
  | epubError
  | concatError
  | saved (name : String) (w : Waveform)
  | created (name : String)
  deriving DecidableEq

/-- Python `str.endswith`, on character lists. -/
def pyEndsWith (s suf : List Char) : Bool :=
  suf.reverse.isPrefixOf s.reverse

/-- Numeric value of a digit string, as Python `int` reads it. -/
def digitsVal (ds : List Char) : Nat :=
  ds.foldl (fun a c => a * 10 + (c.toNat - 48)) 0

/-- Python `filename.replace(".wav", ".mp3")`: replace every occurrence,
scanning left to right. -/
def replWav : List Char → List Char
  | [] => []
  | '.' :: 'w' :: 'a' :: 'v' :: rest2 => '.' :: 'm' :: 'p' :: '3' :: replWav rest2
  | c :: rest => c :: replWav rest

/-- One attempted match of the pattern `chapter_` followed by digits (with a
trailing `.wav` also required when `wavSuffix` is set) at the start of `s`:
what `re.search` tries at a single position.  Greedy digits followed by a
mandatory non-digit suffix never benefit from backtracking, so the maximal
digit run is the only candidate. -/
def matchChapterAt (wavSuffix : Bool) (s : List Char) : Option Nat :=
  if ("chapter_".data).isPrefixOf s then
    let rest := s.drop 8
    let ds := rest.takeWhile Char.isDigit
    if ds.isEmpty then none
    else if wavSuffix then
      if (".wav".data).isPrefixOf (rest.drop ds.length) then some (digitsVal ds) else none
    else some (digitsVal ds)
  else none

/-- Python `re.search` for the chapter-number pattern: scan positions left to
right and return the leftmost match. -/
def searchChapter (wavSuffix : Bool) : List Char → Option Nat
  | [] => none
  | c :: rest =>
    match matchChapterAt wavSuffix (c :: rest) with
    | some n => some n
    | none => searchChapter wavSuffix rest

/-- `extract_chapter_number` from main.py (lines 107-111): parse the chapter
index out of a file name; `none` stands for the infinity fallback. -/
def extract_chapter_number (filename : String) : Option Nat :=
  searchChapter true filename.data

/-- Comparison of parsed chapter keys, `none` playing the role of infinity. -/
def optLt : Option Nat → Option Nat → Bool
  | some a, some b => decide (a < b)
  | some _, none => true
  | none, _ => false

/-- Stable insertion used to model Python sorting: `x` goes after every
already-placed element that is not strictly greater than it. -/
def insertStable {α : Type} (lt : α → α → Bool) (x : α) : List α → List α
  | [] => [x]
  | y :: ys => if lt x y then x :: y :: ys else y :: insertStable lt x ys

/-- Stable sort (Python `list.sort` and `sorted`): left fold of stable
insertion, so elements with equal keys keep their original order. -/
def stableSort {α : Type} (lt : α → α → Bool) (l : List α) : List α :=
  l.foldl (fun acc x => insertStable lt x acc) []

/-- Python string comparison: lexicographic by character code. -/
def lexLt : List Char → List Char → Bool
  | [], [] => false
  | [], _ :: _ => true
  | _ :: _, [] => false
  | a :: as, b :: bs => if a = b then lexLt as bs else decide (a.toNat < b.toNat)

/-- Lines 99-111 of main.py: the `.wav` files of the listing, joined with the
directory path, lexicographically sorted, then stably re-sorted by the parsed
chapter number (names that do not match the pattern get infinity). -/
def wavFilesSorted (inputDir : String) (names : List String) : List String :=
  let joined := (names.filter (fun n => pyEndsWith n.data (".wav".data))).map
    (fun n => inputDir ++ "/" ++ n)
  let lexSorted := stableSort (fun a b => lexLt a.data b.data) joined
  stableSort (fun a b => optLt (extract_chapter_number a) (extract_chapter_number b)) lexSorted

/-- Write a file: overwrite in place if the name exists, else append. -/
def fsWrite (d : Dir) (n : String) (v : FData) : Dir :=
  if d.any (fun p => decide (p.1 = n)) then
    d.map (fun p => if p.1 = n then (n, v) else p)
  else d ++ [(n, v)]

/-- Read a file by name (first binding in listing order). -/
def dirLookup (d : Dir) (n : String) : Option FData :=
  (d.find? (fun p => decide (p.1 = n))).map Prod.snd

/-- Lines 113-121: convert every `.wav` of the listing snapshot to a sibling
`.mp3`; `error` carries the directory state at the point a conversion raised
(a listed wav that cannot be read as WAV data). -/
def convertWavs : List String → Dir → Except Dir Dir
  | [], d => .ok d
  | n :: ns, d =>
    if pyEndsWith n.data (".wav".data) then
      match dirLookup d n with
      | some (FData.wavData w) =>
        convertWavs ns (fsWrite d (String.mk (replWav n.data)) (FData.mp3Data (Seg.fromWav w)))
      | _ => .error d
    else convertWavs ns d

/-- Lines 128-133: read every listed MP3 back as a pydub segment. -/
def readSegs (d : Dir) : List String → Except Dir (List Seg)
  | [] => .ok []
  | n :: ns =>
    match dirLookup d n with
    | some (FData.mp3Data s) =>
      match readSegs d ns with
      | .ok l => .ok (Seg.fromMp3Enc s :: l)
      | .error e => .error e
    | _ => .error d

/-- Python `sum` over pydub segments: left fold of append; the empty sum is
the integer zero, whose export raises. -/
def sumSegs : List Seg → Option Seg
  | [] => none
  | s :: ss => some (ss.foldl Seg.append s)

/-- Outcome of `concat_wavs_to_mp3`: the early return with no wavs, a raised
exception (carrying the directory state at that point), or success with the
final directory state and the exported output file. -/
inductive ConcatResult : Type
  | noWavs (d : Dir)
  | errorAt (d : Dir)
  | ok (d : Dir) (out : FData)
  deriving DecidableEq

/-- `concat_wavs_to_mp3` from main.py (lines 94-140), over a directory
listing.  The sort key of line 126 has no infinity fallback: a listed `.mp3`
whose name does not match the pattern raises, which is the `errorAt` case of
the `all` guard below. -/
def concatDir (inputDir : String) (d : Dir) : ConcatResult :=
  let names := d.map Prod.fst
  let wav_files := wavFilesSorted inputDir names
  if wav_files.isEmpty then ConcatResult.noWavs d
  else
    match convertWavs names d with
    | .error d2 => ConcatResult.errorAt d2
    | .ok d2 =>
      let mp3Names := (d2.map Prod.fst).filter (fun n => pyEndsWith n.data (".mp3".data))
      if mp3Names.all (fun n => (searchChapter false n.data).isSome) then
        let sortedMp3 := stableSort
          (fun a b => optLt (searchChapter false a.data) (searchChapter false b.data)) mp3Names
        match readSegs d2 sortedMp3 with
        | .error d3 => ConcatResult.errorAt d3
        | .ok segs =>
          match sumSegs segs with
          | none => ConcatResult.errorAt d2
          | some s => ConcatResult.ok d2 (FData.mp3Data s)
      else ConcatResult.errorAt d2

/-- `wipe_temp_dir` from main.py (lines 70-92): a no-op when the directory is
missing; otherwise first run the concatenation into `tempfile_output.mp3`
(a relative path, so the file lands in the current working directory), then
delete every file of the directory; an exception from the concatenation is
caught and leaves the deletion undone. -/
def wipeTempDir (fs : FS) : FS × List Ev :=
  match fs.temp with
  | none => (fs, [Ev.dirMissing])
  | some d =>
    match concatDir "temp" d with
    | ConcatResult.errorAt d2 => ({ fs with temp := some d2 }, [Ev.wipeError])
    | ConcatResult.noWavs _ => ({ fs with temp := some [] }, [Ev.noWavFiles, Ev.wipeDone])
    | ConcatResult.ok _ out =>
      ({ temp := some [], cwd := fsWrite fs.cwd "tempfile_output.mp3" out }, [Ev.wipeDone])

/-- Lines 156-169: the per-chapter synthesis loop; `i` counts saves and is
advanced only after a successful save; a failed synthesis or save is logged
with the current `i` and skipped. -/
def synthLoop (synth : String → Option Waveform) :
    List (String × String) → Nat → FS → FS × List Ev
  | [], _, fs => (fs, [])
  | (_, content) :: rest, i, fs =>
    match synth content, fs.temp with
    | some w, some d =>
      let name := "chapter_" ++ toString i ++ ".wav"
      let r := synthLoop synth rest (i + 1)
        { fs with temp := some (fsWrite d name (FData.wavData w)) }
      (r.1, Ev.saved name w :: r.2)
    | some _, none =>
      let r := synthLoop synth rest i fs
      (r.1, Ev.chapterError i :: r.2)
    | none, _ =>
      let r := synthLoop synth rest i fs
      (r.1, Ev.chapterError i :: r.2)

/-- `main` from main.py (lines 143-187), with the epub library call and the
TTS engine taken as oracles: returns the final filesystem, the exit code and
the run log.  `success` is true exactly when the first try block (extraction,
start-of-run wipe, synthesis loop) finished without an uncaught exception. -/
def runMain (ext : Except Unit (List (String × String) × String))
    (synth : String → Option Waveform) (fs0 : FS) : FS × Nat × List Ev :=
  let phase1 : FS × Bool × Option String × List Ev :=
    match ext with
    | .error _ => (fs0, false, none, [Ev.epubError])
    | .ok (chapters, title) =>
      let w := wipeTempDir fs0
      let s := synthLoop synth chapters 1 w.1
      (s.1, true, some title, w.2 ++ s.2)
  let fs1 := phase1.1
  let success := phase1.2.1
  let titleOpt := phase1.2.2.1
  let log1 := phase1.2.2.2
  let outName :=
    (match titleOpt with
     | some t => if t = "" then "audiobook" else t
     | none => "audiobook") ++ ".mp3"
  match fs1.temp with
  | none => (fs1, 1, log1 ++ [Ev.concatError])
  | some d =>
    match concatDir "temp" d with
    | ConcatResult.errorAt d2 => ({ fs1 with temp := some d2 }, 1, log1 ++ [Ev.concatError])
    | ConcatResult.noWavs _ =>
      (fs1, (if success then 0 else 1), log1 ++ [Ev.noWavFiles, Ev.created outName])
    | ConcatResult.ok d2 out =>
      ({ temp := some d2, cwd := fsWrite fs1.cwd outName out },
        (if success then 0 else 1), log1 ++ [Ev.created outName])

/-- One entry of the epub container: its internal id, whether it is a
document item, the h1-h3 heading texts in document order, and the plain text
BeautifulSoup extracts from the whole entry. -/
structure EpubItem where
  id : String
  isDocument : Bool
  headings : List String
  rawText : String

/-- The epub container: its items in traversal order and the Dublin-Core
title metadata entries. -/
structure EpubBook where
  items : List EpubItem
  dcTitles : List String

/-- Python `str.split()` with no separator: whitespace-run tokenization with
no empty tokens; `acc` accumulates the current word reversed. -/
def splitWsAux : List Char → List Char → List (List Char)
  | [], acc => if acc = [] then [] else [acc.reverse]
  | c :: rest, acc =>
    if c.isWhitespace then
      if acc = [] then splitWsAux rest [] else acc.reverse :: splitWsAux rest []
    else splitWsAux rest (c :: acc)

/-- Python `" ".join(words)`. -/
def joinSpace : List (List Char) → List Char
  | [] => []
  | [w] => w
  | w :: ws => w ++ ' ' :: joinSpace ws

/-- `clean_text`: `" ".join(text.split())`, collapsing all whitespace runs
(newlines included) to single spaces. -/
def cleanText (s : String) : String :=
  String.mk (joinSpace (splitWsAux s.data []))

/-- Python `str.strip()`: drop whitespace from both ends. -/
def pyStrip (s : List Char) : List Char :=
  ((s.dropWhile Char.isWhitespace).reverse.dropWhile Char.isWhitespace).reverse

/-- The title heuristic of `read_epub`: the first heading with non-empty
stripped text, else a synthetic title from the item id. -/
def itemTitle (it : EpubItem) : String :=
  match it.headings.find? (fun h => decide (pyStrip h.data ≠ [])) with
  | some h => String.mk (pyStrip h.data)
  | none => "Chapter " ++ it.id

/-- Python dict assignment `chapters[title] = content`: update the first
binding of the key in place, else append a new binding. -/
def dictInsert : List (String × String) → String → String → List (String × String)
  | [], k, v => [(k, v)]
  | (a, x) :: rest, k, v =>
    if a = k then (a, v) :: rest else (a, x) :: dictInsert rest k v

/-- The chapter dictionary built by the item loop of `read_epub`
(lines 46-66), in insertion order. -/
def extractChapters (items : List EpubItem) : List (String × String) :=
  items.foldl
    (fun chs it =>
      if it.isDocument then dictInsert chs (itemTitle it) (cleanText it.rawText) else chs)
    []

/-- `read_epub` (lines 19-68): the chapter dictionary plus the first
Dublin-Core title; a book without a title entry raises (the IndexError on
`get_metadata(...)[0]`), which discards the chapters as well. -/
def readEpub (b : EpubBook) : Option (List (String × String) × String) :=
  match b.dcTitles with
  | [] => none
  | t :: _ => some (extractChapters b.items, t)

/-- The document-entry titles in traversal order. -/
def docTitles (items : List EpubItem) : List String :=
  (items.filter (fun it => it.isDocument)).map itemTitle

/-- First-occurrence deduplication of a list of titles. -/
def dedupFirst (l : List String) : List String :=
  l.foldl (fun acc k => if k ∈ acc then acc else acc ++ [k]) []

/-- Ordered list of source waveforms under a segment tree. -/
def segSources : Seg → List Waveform
  | Seg.fromWav w => [w]
  | Seg.fromMp3Enc s => segSources s
  | Seg.append a b => segSources a ++ segSources b

/-- Ordered list of source waveforms of an output file. -/
def fdataSources : FData → List Waveform
  | FData.wavData w => [w]
  | FData.mp3Data s => segSources s
  | FData.otherData => []

/-- The save operations recorded in a log, in order. -/
def savedOps (l : List Ev) : List (String × Waveform) :=
  l.filterMap (fun e => match e with | Ev.saved n w => some (n, w) | _ => none)

/-- Leftmost leaf of a segment tree. -/
def Seg.leftLeaf : Seg → Seg
  | Seg.append a _ => Seg.leftLeaf a
  | s => s

/-- Modelled from the spec (section 4.4): the direct-waveform-concatenation
assembly the specification adopts — decode each artifact natively,
concatenate in index order, re-encode exactly once.  The repository source
under src only contains the MP3-intermediate variant, so this definition
follows the words of the spec and exists for comparison. -/
def directConcatOut : List Waveform → Option FData
  | [] => none
  | w :: ws => some (FData.mp3Data ((ws.map Seg.fromWav).foldl Seg.append (Seg.fromWav w)))

/-- The artifact name `chapter_<ds>.wav` for a digit string `ds`. -/
def chapterWavName (ds : List Char) : String :=
  String.mk ("chapter_".data ++ (ds ++ ".wav".data))

/-- The intermediate name `chapter_<ds>.mp3` for a digit string `ds`. -/
def chapterMp3Name (ds : List Char) : String :=
  String.mk ("chapter_".data ++ (ds ++ ".mp3".data))

/-- A canonical artifact directory: `chapter_<ds>.wav` files in listing
order, one per digit-string and waveform pair. -/
def canonDir (l : List (List Char × Waveform)) : Dir :=
  l.map (fun p => (chapterWavName p.1, FData.wavData p.2))

/-- The MP3 intermediates the conversion loop writes next to a canonical
artifact directory. -/
def mp3Sides (l : List (List Char × Waveform)) : Dir :=
  l.map (fun p => (chapterMp3Name p.1, FData.mp3Data (Seg.fromWav p.2)))

/-- The decoded MP3-roundtripped segments of the artifacts, in order. -/
def roundTripSegs (l : List (List Char × Waveform)) : List Seg :=
  l.map (fun p => Seg.fromMp3Enc (Seg.fromWav p.2))

/-- A five-chapter synthesis oracle that fails on exactly the third chapter
text and returns the given waveforms on the others. -/
def synth5 (w1 w2 w4 w5 : Waveform) : String → Option Waveform := fun c =>
  if c = "c1" then some w1
  else if c = "c2" then some w2
  else if c = "c3" then none
  else if c = "c4" then some w4
  else if c = "c5" then some w5
  else none

/-- Five extracted chapters with distinct titles and texts. -/
def chaps5 : List (String × String) :=
  [("t1", "c1"), ("t2", "c2"), ("t3", "c3"), ("t4", "c4"), ("t5", "c5")]

/-! Helper lemmas about character lists. -/

lemma wavSufData : ".wav".data = ['.', 'w', 'a', 'v'] := rfl

lemma mp3SufData : ".mp3".data = ['.', 'm', 'p', '3'] := rfl

lemma chapPreData : "chapter_".data = ['c', 'h', 'a', 'p', 't', 'e', 'r', '_'] := rfl

lemma isPrefixOf_append_self (a b : List Char) : a.isPrefixOf (a ++ b) = true := by
  induction a with
  | nil => simp [List.isPrefixOf]
  | cons c cs ih => simp [List.isPrefixOf, ih]

lemma pyEndsWith_append (x s : List Char) : pyEndsWith (x ++ s) s = true := by
  unfold pyEndsWith
  rw [List.reverse_append]
  exact isPrefixOf_append_self _ _

lemma pyEndsWith_wav_not_mp3 (y : List Char) :
    pyEndsWith (y ++ ".wav".data) (".mp3".data) = false := by
  unfold pyEndsWith
  rw [List.reverse_append]
  rfl

lemma pyEndsWith_mp3_not_wav (y : List Char) :
    pyEndsWith (y ++ ".mp3".data) (".wav".data) = false := by
  unfold pyEndsWith
  rw [List.reverse_append]
  rfl

lemma takeWhile_digits (ds r : List Char) (h : ∀ c ∈ ds, c.isDigit = true) :
    (ds ++ '.' :: r).takeWhile Char.isDigit = ds := by
  induction ds with
  | nil => rfl
  | cons c cs ih =>
    have hc : c.isDigit = true := h c (by simp)
    simp only [List.cons_append, List.takeWhile_cons, hc, if_true]
    rw [ih (fun x hx => h x (by simp [hx]))]

lemma mk_wav_ne_mk_mp3 (x y : List Char) :
    String.mk (x ++ ".wav".data) ≠ String.mk (y ++ ".mp3".data) := by
  intro h
  have h1 : x ++ ".wav".data = y ++ ".mp3".data := by
    simpa using congrArg String.data h
  have h2 := congrArg List.reverse h1
  rw [List.reverse_append, List.reverse_append] at h2
  simp [wavSufData, mp3SufData] at h2

lemma mk_append_inj (pre suf ds1 ds2 : List Char)
    (h : String.mk (pre ++ (ds1 ++ suf)) = String.mk (pre ++ (ds2 ++ suf))) : ds1 = ds2 := by
  have h1 : pre ++ (ds1 ++ suf) = pre ++ (ds2 ++ suf) := by
    simpa using congrArg String.data h
  exact List.append_cancel_right (List.append_cancel_left h1)

lemma replWav_no_dot (pre : List Char) (h : '.' ∉ pre) :
    replWav (pre ++ ".wav".data) = pre ++ ".mp3".data := by
  induction pre with
  | nil => rfl
  | cons c cs ih =>
    have hc : c ≠ '.' := by
      intro he; exact h (by simp [he])
    have hcs : '.' ∉ cs := fun hx => h (by simp [hx])
    rw [List.cons_append, List.cons_append]
    rw [replWav.eq_def]
    split
    · simp_all
    · simp_all
    · rename_i heq
      injection heq with h1 h2
      subst h1
      rw [← h2, ih hcs]

lemma matchChapterAt_mp3 (ds r : List Char) (h1 : ds ≠ [])
    (h2 : ∀ c ∈ ds, c.isDigit = true) :
    matchChapterAt false ("chapter_".data ++ (ds ++ '.' :: r)) = some (digitsVal ds) := by
  have hemp : ds.isEmpty = false := by
    cases ds with
    | nil => exact absurd rfl h1
    | cons a l => rfl
  have hdrop : ("chapter_".data ++ (ds ++ '.' :: r)).drop 8 = ds ++ '.' :: r := by
    simp
  have hdrop2 : (ds ++ '.' :: r).drop ds.length = '.' :: r := List.drop_left _ _
  have htw := takeWhile_digits ds r h2
  simp only [matchChapterAt, isPrefixOf_append_self, if_true, hdrop, htw, hemp,
    Bool.false_eq_true, if_false, hdrop2]

lemma searchChapter_mp3 (ds r : List Char) (h1 : ds ≠ [])
    (h2 : ∀ c ∈ ds, c.isDigit = true) :
    searchChapter false ("chapter_".data ++ (ds ++ '.' :: r)) = some (digitsVal ds) := by
  have hm := matchChapterAt_mp3 ds r h1 h2
  rw [chapPreData] at hm ⊢
  simp only [List.cons_append] at hm ⊢
  rw [searchChapter, hm]

/-! Helper lemmas about the stable sort. -/

lemma insertStable_mem {α : Type} (lt : α → α → Bool) (x : α) (l : List α) (z : α)
    (hz : z ∈ insertStable lt x l) : z = x ∨ z ∈ l := by
  induction l with
  | nil => simpa [insertStable] using hz
  | cons y ys ih =>
    rw [insertStable] at hz
    by_cases hb : lt x y = true
    · rw [if_pos hb] at hz
      rcases List.mem_cons.mp hz with h | h
      · exact Or.inl h
      · exact Or.inr h
    · rw [if_neg hb] at hz
      rcases List.mem_cons.mp hz with h | h
      · exact Or.inr (by simp [h])
      · rcases ih h with h2 | h2
        · exact Or.inl h2
        · exact Or.inr (by simp [h2])

lemma insertStable_sorted {α : Type} (lt : α → α → Bool)
    (htr : ∀ a b c, lt a b = true → lt b c = true → lt a c = true)
    (has : ∀ a b, lt a b = true → lt b a = false)
    (x : α) (l : List α) (hl : List.Pairwise (fun a b => lt b a = false) l) :
    List.Pairwise (fun a b => lt b a = false) (insertStable lt x l) := by
  induction l with
  | nil => simp [insertStable]
  | cons y ys ih =>
    rw [List.pairwise_cons] at hl
    obtain ⟨hy, hys⟩ := hl
    rw [insertStable]
    by_cases hb : lt x y = true
    · rw [if_pos hb]
      refine List.pairwise_cons.mpr ⟨?_, List.pairwise_cons.mpr ⟨hy, hys⟩⟩
      intro z hz
      rcases List.mem_cons.mp hz with rfl | hz2
      · exact has x z hb
      · by_contra hzx
        have hzx2 : lt z x = true := by
          cases hlt : lt z x
          · exact absurd hlt hzx
          · rfl
        have := htr z x y hzx2 hb
        rw [hy z hz2] at this
        exact Bool.false_ne_true this
    · rw [if_neg hb]
      refine List.pairwise_cons.mpr ⟨?_, ih hys⟩
      intro z hz
      rcases insertStable_mem lt x ys z hz with rfl | hz2
      · cases hlt : lt z y
        · rfl
        · exact absurd hlt hb
      · exact hy z hz2

lemma stableSort_sorted {α : Type} (lt : α → α → Bool)
    (htr : ∀ a b c, lt a b = true → lt b c = true → lt a c = true)
    (has : ∀ a b, lt a b = true → lt b a = false)
    (l : List α) :
    List.Pairwise (fun a b => lt b a = false) (stableSort lt l) := by
  suffices h : ∀ (l acc : List α), List.Pairwise (fun a b => lt b a = false) acc →
      List.Pairwise (fun a b => lt b a = false)
        (l.foldl (fun acc x => insertStable lt x acc) acc) by
    exact h l [] (by simp)
  intro l
  induction l with
  | nil => intro acc hacc; simpa using hacc
  | cons x xs ih =>
    intro acc hacc
    exact ih _ (insertStable_sorted lt htr has x acc hacc)

lemma insertStable_last {α : Type} (lt : α → α → Bool) (x : α) (l : List α)
    (h : ∀ y ∈ l, lt x y = false) : insertStable lt x l = l ++ [x] := by
  induction l with
  | nil => rfl
  | cons y ys ih =>
    rw [insertStable, if_neg (by simp [h y (by simp)])]
    rw [ih (fun z hz => h z (by simp [hz]))]
    rfl

lemma stableSort_sorted_id {α : Type} (lt : α → α → Bool) (l : List α)
    (h : List.Pairwise (fun a b => lt b a = false) l) : stableSort lt l = l := by
  suffices hgo : ∀ (l acc : List α), (∀ y ∈ acc, ∀ x ∈ l, lt x y = false) →
      List.Pairwise (fun a b => lt b a = false) l →
      (l.foldl (fun acc x => insertStable lt x acc) acc) = acc ++ l by
    simpa using hgo l [] (by simp) h
  intro l
  induction l with
  | nil => intro acc h1 h2; simp
  | cons x xs ih =>
    intro acc h1 h2
    rw [List.pairwise_cons] at h2
    obtain ⟨hx, hxs⟩ := h2
    have hins : insertStable lt x acc = acc ++ [x] :=
      insertStable_last lt x acc (fun y hy => h1 y hy x (by simp))
    calc (x :: xs).foldl (fun acc x => insertStable lt x acc) acc
        = xs.foldl (fun acc x => insertStable lt x acc) (acc ++ [x]) := by
          rw [List.foldl_cons, hins]
      _ = (acc ++ [x]) ++ xs := by
          refine ih (acc ++ [x]) ?_ hxs
          intro y hy z hz
          rcases List.mem_append.mp hy with hy2 | hy2
          · exact h1 y hy2 z (by simp [hz])
          · have : y = x := by simpa using hy2
            subst this
            exact hx z hz
      _ = acc ++ (x :: xs) := by simp

lemma optLt_trans : ∀ a b c : Option Nat,
    optLt a b = true → optLt b c = true → optLt a c = true := by
  intro a b c h1 h2
  cases a <;> cases b <;> cases c <;> simp_all [optLt]
  omega

lemma optLt_asym : ∀ a b : Option Nat, optLt a b = true → optLt b a = false := by
  intro a b h
  cases a <;> cases b <;> simp_all [optLt]
  omega

/-! Helper lemmas about the filesystem model. -/

lemma fsWrite_fresh (d : Dir) (n : String) (v : FData) (h : ∀ p ∈ d, p.1 ≠ n) :
    fsWrite d n v = d ++ [(n, v)] := by
  unfold fsWrite
  have hany : d.any (fun p => decide (p.1 = n)) = false := by
    rw [List.any_eq_false]
    intro p hp
    simp [h p hp]
  rw [hany]
  simp

lemma dirLookup_cons_self (n : String) (v : FData) (d : Dir) :
    dirLookup ((n, v) :: d) n = some v := by
  simp [dirLookup]

lemma dirLookup_cons_ne (m : String) (v : FData) (d : Dir) (n : String) (h : m ≠ n) :
    dirLookup ((m, v) :: d) n = dirLookup d n := by
  simp [dirLookup, List.find?_cons, h]

lemma dirLookup_append_right (d1 d2 : Dir) (n : String) (h : ∀ p ∈ d1, p.1 ≠ n) :
    dirLookup (d1 ++ d2) n = dirLookup d2 n := by
  unfold dirLookup
  rw [List.find?_append]
  have hnone : d1.find? (fun p => decide (p.1 = n)) = none := by
    rw [List.find?_eq_none]
    intro p hp
    simp [h p hp]
  rw [hnone, Option.none_or]

lemma dirLookup_append_left (d1 d2 : Dir) (n : String) (v : FData)
    (h : dirLookup d1 n = some v) : dirLookup (d1 ++ d2) n = some v := by
  unfold dirLookup at h ⊢
  rw [List.find?_append]
  cases hf : d1.find? (fun p => decide (p.1 = n)) with
  | none => rw [hf] at h; simp at h
  | some p => rw [hf] at h; simpa using h

/-! Lemmas about canonical artifact directories. -/

lemma digits_no_dot (ds : List Char) (h : ∀ c ∈ ds, c.isDigit = true) : '.' ∉ ds := by
  intro hin
  exact absurd (h '.' hin) (by decide)

lemma chapterWavName_ne_mp3 (ds1 ds2 : List Char) :
    chapterWavName ds1 ≠ chapterMp3Name ds2 := by
  unfold chapterWavName chapterMp3Name
  rw [← List.append_assoc, ← List.append_assoc]
  exact mk_wav_ne_mk_mp3 _ _

lemma chapterMp3Name_inj (ds1 ds2 : List Char) (h : chapterMp3Name ds1 = chapterMp3Name ds2) :
    ds1 = ds2 := mk_append_inj _ _ _ _ h

lemma chapterWavName_inj (ds1 ds2 : List Char) (h : chapterWavName ds1 = chapterWavName ds2) :
    ds1 = ds2 := mk_append_inj _ _ _ _ h

lemma chapterWavName_endsWith_wav (ds : List Char) :
    pyEndsWith (chapterWavName ds).data (".wav".data) = true := by
  show pyEndsWith ("chapter_".data ++ (ds ++ ".wav".data)) (".wav".data) = true
  rw [← List.append_assoc]
  exact pyEndsWith_append _ _

lemma chapterWavName_not_mp3 (ds : List Char) :
    pyEndsWith (chapterWavName ds).data (".mp3".data) = false := by
  show pyEndsWith ("chapter_".data ++ (ds ++ ".wav".data)) (".mp3".data) = false
  rw [← List.append_assoc]
  exact pyEndsWith_wav_not_mp3 _

lemma chapterMp3Name_endsWith_mp3 (ds : List Char) :
    pyEndsWith (chapterMp3Name ds).data (".mp3".data) = true := by
  show pyEndsWith ("chapter_".data ++ (ds ++ ".mp3".data)) (".mp3".data) = true
  rw [← List.append_assoc]
  exact pyEndsWith_append _ _

lemma chapterMp3Name_not_wav (ds : List Char) :
    pyEndsWith (chapterMp3Name ds).data (".wav".data) = false := by
  show pyEndsWith ("chapter_".data ++ (ds ++ ".mp3".data)) (".wav".data) = false
  rw [← List.append_assoc]
  exact pyEndsWith_mp3_not_wav _

lemma searchChapter_mp3Name (ds : List Char) (h1 : ds ≠ [])
    (h2 : ∀ c ∈ ds, c.isDigit = true) :
    searchChapter false (chapterMp3Name ds).data = some (digitsVal ds) :=
  searchChapter_mp3 ds ['m', 'p', '3'] h1 h2

lemma replWav_wavName (ds : List Char) (h2 : ∀ c ∈ ds, c.isDigit = true) :
    String.mk (replWav (chapterWavName ds).data) = chapterMp3Name ds := by
  have hnd : '.' ∉ "chapter_".data ++ ds := by
    intro h
    rcases List.mem_append.mp h with h | h
    · rw [chapPreData] at h
      simp at h
    · exact digits_no_dot ds h2 h
  have hr := replWav_no_dot ("chapter_".data ++ ds) hnd
  show String.mk (replWav ("chapter_".data ++ (ds ++ ".wav".data))) = chapterMp3Name ds
  rw [← List.append_assoc, hr, List.append_assoc]
  rfl

lemma dirLookup_canonDir (l : List (List Char × Waveform))
    (hd : List.Pairwise (fun p q => p.1 ≠ q.1) l) :
    ∀ p ∈ l, dirLookup (canonDir l) (chapterWavName p.1) = some (FData.wavData p.2) := by
  induction l with
  | nil => simp
  | cons q qs ih =>
    rw [List.pairwise_cons] at hd
    obtain ⟨hq, hqs⟩ := hd
    intro p hp
    rcases List.mem_cons.mp hp with rfl | hp2
    · simp only [canonDir, List.map_cons]
      exact dirLookup_cons_self _ _ _
    · have hne : chapterWavName q.1 ≠ chapterWavName p.1 :=
        fun he => (hq p hp2) (chapterWavName_inj _ _ he)
      simp only [canonDir, List.map_cons]
      rw [dirLookup_cons_ne _ _ _ _ hne]
      exact ih hqs p hp2

lemma dirLookup_mp3Sides (l : List (List Char × Waveform))
    (hd : List.Pairwise (fun p q => p.1 ≠ q.1) l) :
    ∀ p ∈ l, dirLookup (mp3Sides l) (chapterMp3Name p.1) =
      some (FData.mp3Data (Seg.fromWav p.2)) := by
  induction l with
  | nil => simp
  | cons q qs ih =>
    rw [List.pairwise_cons] at hd
    obtain ⟨hq, hqs⟩ := hd
    intro p hp
    rcases List.mem_cons.mp hp with rfl | hp2
    · simp only [mp3Sides, List.map_cons]
      exact dirLookup_cons_self _ _ _
    · have hne : chapterMp3Name q.1 ≠ chapterMp3Name p.1 :=
        fun he => (hq p hp2) (chapterMp3Name_inj _ _ he)
      simp only [mp3Sides, List.map_cons]
      rw [dirLookup_cons_ne _ _ _ _ hne]
      exact ih hqs p hp2

lemma convertWavs_canon :
    ∀ (rest : List (List Char × Waveform)) (dpre : Dir),
      (∀ p ∈ rest, ∀ c ∈ p.1, c.isDigit = true) →
      (∀ p ∈ rest, dirLookup dpre (chapterWavName p.1) = some (FData.wavData p.2)) →
      (∀ p ∈ rest, ∀ q ∈ dpre, q.1 ≠ chapterMp3Name p.1) →
      List.Pairwise (fun p q => p.1 ≠ q.1) rest →
      convertWavs (rest.map (fun p => chapterWavName p.1)) dpre =
        .ok (dpre ++ mp3Sides rest) := by
  intro rest
  induction rest with
  | nil =>
    intro dpre _ _ _ _
    simp [convertWavs, mp3Sides]
  | cons p ps ih =>
    intro dpre hdig hlk hfr hdist
    rw [List.pairwise_cons] at hdist
    obtain ⟨hp1, hdist2⟩ := hdist
    rw [List.map_cons]
    rw [convertWavs]
    rw [chapterWavName_endsWith_wav, if_pos rfl]
    rw [hlk p (by simp)]
    dsimp only
    rw [replWav_wavName p.1 (hdig p (by simp))]
    rw [fsWrite_fresh dpre (chapterMp3Name p.1) _ (hfr p (by simp))]
    have hih := ih (dpre ++ [(chapterMp3Name p.1, FData.mp3Data (Seg.fromWav p.2))])
      (fun q hq c hc => hdig q (by simp [hq]) c hc)
      (fun q hq => dirLookup_append_left _ _ _ _ (hlk q (by simp [hq])))
      (fun q hq r hr => by
        rcases List.mem_append.mp hr with hr2 | hr2
        · exact hfr q (by simp [hq]) r hr2
        · have : r = (chapterMp3Name p.1, FData.mp3Data (Seg.fromWav p.2)) := by simpa using hr2
          subst this
          exact fun he => (hp1 q hq) (chapterMp3Name_inj _ _ he))
      hdist2
    rw [hih]
    simp [mp3Sides]

lemma readSegs_canon (d2 : Dir) :
    ∀ (l : List (List Char × Waveform)),
      (∀ p ∈ l, dirLookup d2 (chapterMp3Name p.1) = some (FData.mp3Data (Seg.fromWav p.2))) →
      readSegs d2 (l.map (fun p => chapterMp3Name p.1)) = .ok (roundTripSegs l) := by
  intro l
  induction l with
  | nil => intro _; simp [readSegs, roundTripSegs]
  | cons p ps ih =>
    intro h
    rw [List.map_cons, readSegs, h p (by simp), ih (fun q hq => h q (by simp [hq]))]
    rfl

lemma insertStable_length {α : Type} (lt : α → α → Bool) (x : α) (l : List α) :
    (insertStable lt x l).length = l.length + 1 := by
  induction l with
  | nil => rfl
  | cons y ys ih =>
    rw [insertStable]
    by_cases hb : lt x y = true
    · rw [if_pos hb]; simp
    · rw [if_neg hb]; simp [ih]

lemma stableSort_length {α : Type} (lt : α → α → Bool) (l : List α) :
    (stableSort lt l).length = l.length := by
  suffices h : ∀ (l acc : List α),
      (l.foldl (fun acc x => insertStable lt x acc) acc).length = acc.length + l.length by
    simpa using h l []
  intro l
  induction l with
  | nil => intro acc; simp
  | cons x xs ih =>
    intro acc
    rw [List.foldl_cons, ih]
    rw [insertStable_length, List.length_cons]
    omega

lemma concatDir_canon (dirStr : String) (p : List Char × Waveform)
    (ps : List (List Char × Waveform))
    (hdig : ∀ q ∈ p :: ps, q.1 ≠ [] ∧ ∀ c ∈ q.1, c.isDigit = true)
    (hinc : List.Pairwise (fun a b => digitsVal a.1 < digitsVal b.1) (p :: ps)) :
    concatDir dirStr (canonDir (p :: ps)) =
      ConcatResult.ok (canonDir (p :: ps) ++ mp3Sides (p :: ps))
        (FData.mp3Data ((roundTripSegs ps).foldl Seg.append
          (Seg.fromMp3Enc (Seg.fromWav p.2)))) := by
  have hdist : List.Pairwise (fun a b => a.1 ≠ b.1) (p :: ps) := by
    refine hinc.imp ?_
    intro a b h he
    rw [he] at h
    omega
  have hnames : (canonDir (p :: ps)).map Prod.fst =
      (p :: ps).map (fun q => chapterWavName q.1) := by
    simp [canonDir]
  have hfilter : ((p :: ps).map (fun q => chapterWavName q.1)).filter
      (fun n => pyEndsWith n.data (".wav".data)) =
      (p :: ps).map (fun q => chapterWavName q.1) := by
    rw [List.filter_eq_self]
    intro a ha
    obtain ⟨q, hq, rfl⟩ := List.mem_map.mp ha
    exact chapterWavName_endsWith_wav q.1
  have hlen : (wavFilesSorted dirStr ((canonDir (p :: ps)).map Prod.fst)).length =
      (p :: ps).length := by
    rw [hnames]
    unfold wavFilesSorted
    rw [stableSort_length, stableSort_length, hfilter, List.length_map, List.length_map]
  have hemp : (wavFilesSorted dirStr ((canonDir (p :: ps)).map Prod.fst)).isEmpty = false := by
    cases he : (wavFilesSorted dirStr ((canonDir (p :: ps)).map Prod.fst)).isEmpty
    · rfl
    · rw [List.isEmpty_iff] at he
      rw [he] at hlen
      simp at hlen
  have hconv : convertWavs ((canonDir (p :: ps)).map Prod.fst) (canonDir (p :: ps)) =
      .ok (canonDir (p :: ps) ++ mp3Sides (p :: ps)) := by
    rw [hnames]
    refine convertWavs_canon (p :: ps) (canonDir (p :: ps))
      (fun q hq => (hdig q hq).2) (dirLookup_canonDir _ hdist) ?_ hdist
    intro q hq r hr
    obtain ⟨x, hx, rfl⟩ := List.mem_map.mp hr
    exact chapterWavName_ne_mp3 x.1 q.1
  have hmp3names : ((canonDir (p :: ps) ++ mp3Sides (p :: ps)).map Prod.fst).filter
      (fun n => pyEndsWith n.data (".mp3".data)) =
      (p :: ps).map (fun q => chapterMp3Name q.1) := by
    rw [List.map_append, List.filter_append]
    have h1 : ((canonDir (p :: ps)).map Prod.fst).filter
        (fun n => pyEndsWith n.data (".mp3".data)) = [] := by
      rw [List.filter_eq_nil_iff]
      intro a ha
      rw [hnames] at ha
      obtain ⟨q, hq, rfl⟩ := List.mem_map.mp ha
      simp [chapterWavName_not_mp3 q.1]
    have h2 : ((mp3Sides (p :: ps)).map Prod.fst).filter
        (fun n => pyEndsWith n.data (".mp3".data)) =
        (p :: ps).map (fun q => chapterMp3Name q.1) := by
      have hm : (mp3Sides (p :: ps)).map Prod.fst =
          (p :: ps).map (fun q => chapterMp3Name q.1) := by
        simp [mp3Sides]
      rw [hm, List.filter_eq_self]
      intro a ha
      obtain ⟨q, hq, rfl⟩ := List.mem_map.mp ha
      exact chapterMp3Name_endsWith_mp3 q.1
    rw [h1, h2, List.nil_append]
  have hall : ((p :: ps).map (fun q => chapterMp3Name q.1)).all
      (fun n => (searchChapter false n.data).isSome) = true := by
    rw [List.all_eq_true]
    intro n hn
    obtain ⟨q, hq, rfl⟩ := List.mem_map.mp hn
    rw [searchChapter_mp3Name q.1 (hdig q hq).1 (hdig q hq).2]
    rfl
  have hsort : stableSort
      (fun a b => optLt (searchChapter false a.data) (searchChapter false b.data))
      ((p :: ps).map (fun q => chapterMp3Name q.1)) =
      (p :: ps).map (fun q => chapterMp3Name q.1) := by
    refine stableSort_sorted_id _ _ ?_
    rw [List.pairwise_map]
    refine List.Pairwise.imp_of_mem ?_ hinc
    intro a b ha hb h
    rw [searchChapter_mp3Name a.1 (hdig a ha).1 (hdig a ha).2,
        searchChapter_mp3Name b.1 (hdig b hb).1 (hdig b hb).2]
    simp [optLt]
    omega
  have hread : readSegs (canonDir (p :: ps) ++ mp3Sides (p :: ps))
      ((p :: ps).map (fun q => chapterMp3Name q.1)) = .ok (roundTripSegs (p :: ps)) := by
    refine readSegs_canon _ (p :: ps) ?_
    intro q hq
    rw [dirLookup_append_right]
    · exact dirLookup_mp3Sides _ hdist q hq
    · intro r hr
      obtain ⟨x, hx, rfl⟩ := List.mem_map.mp hr
      exact chapterWavName_ne_mp3 x.1 q.1
  rw [mp3SufData] at hmp3names
  simp only [concatDir]
  rw [hemp, hconv]
  rw [if_neg (show ¬(false = true) by decide)]
  dsimp only
  rw [hmp3names, hall]
  rw [if_pos rfl]
  rw [hsort, hread]
  rfl

lemma leftLeaf_foldl (ss : List Seg) (s : Seg) :
    (ss.foldl Seg.append s).leftLeaf = s.leftLeaf := by
  induction ss generalizing s with
  | nil => rfl
  | cons x xs ih =>
    rw [List.foldl_cons, ih]
    rfl

lemma savedOps_cons_saved (n : String) (w : Waveform) (l : List Ev) :
    savedOps (Ev.saved n w :: l) = (n, w) :: savedOps l := rfl

lemma savedOps_cons_chErr (i : Nat) (l : List Ev) :
    savedOps (Ev.chapterError i :: l) = savedOps l := rfl

lemma dictInsert_keys (d : List (String × String)) (k v : String) :
    (dictInsert d k v).map Prod.fst =
      (if k ∈ d.map Prod.fst then d.map Prod.fst else d.map Prod.fst ++ [k]) := by
  induction d with
  | nil => simp [dictInsert]
  | cons hd rest ih =>
    obtain ⟨a, x⟩ := hd
    rw [dictInsert]
    by_cases hak : a = k
    · subst hak
      rw [if_pos rfl]
      simp
    · rw [if_neg hak]
      simp only [List.map_cons]
      rw [ih]
      by_cases hk : k ∈ rest.map Prod.fst
      · rw [if_pos hk, if_pos (by simp [hk])]
      · have hka : ¬ (k ∈ a :: rest.map Prod.fst) := by
          simp only [List.mem_cons]
          push_neg
          exact ⟨fun he => hak he.symm, hk⟩
        rw [if_neg hk, if_neg hka]
        simp

lemma extractChapters_keys (items : List EpubItem) :
    (extractChapters items).map Prod.fst = dedupFirst (docTitles items) := by
  suffices h : ∀ (its : List EpubItem) (acc : List (String × String)),
      ((its.foldl (fun chs it =>
        if it.isDocument then dictInsert chs (itemTitle it) (cleanText it.rawText) else chs)
          acc).map Prod.fst)
      = ((its.filter (fun it => it.isDocument)).map itemTitle).foldl
          (fun acc2 k => if k ∈ acc2 then acc2 else acc2 ++ [k]) (acc.map Prod.fst) by
    simpa [extractChapters, dedupFirst, docTitles] using h items []
  intro its
  induction its with
  | nil => intro acc; simp
  | cons it rest ih =>
    intro acc
    rw [List.foldl_cons]
    by_cases hdoc : it.isDocument = true
    · rw [if_pos hdoc, ih]
      rw [List.filter_cons_of_pos hdoc]
      simp only [List.map_cons, List.foldl_cons]
      rw [dictInsert_keys]
    · rw [if_neg hdoc, ih]
      rw [List.filter_cons_of_neg hdoc]

lemma synthLoop_savedOps (synth : String → Option Waveform) :
    ∀ (chapters : List (String × String)) (i : Nat) (fs : FS) (d : Dir),
      fs.temp = some d →
      savedOps (synthLoop synth chapters i fs).2 =
        (List.enumFrom i (chapters.filterMap (fun c => synth c.2))).map
          (fun q => ("chapter_" ++ toString q.1 ++ ".wav", q.2)) := by
  intro chapters
  induction chapters with
  | nil => intro i fs d h; simp [synthLoop, savedOps]
  | cons c rest ih =>
    intro i fs d h
    obtain ⟨t, content⟩ := c
    rw [synthLoop]
    cases hsy : synth content with
    | some w =>
      rw [h]
      dsimp only
      rw [savedOps_cons_saved]
      rw [ih (i + 1) _ _ rfl]
      rw [List.filterMap_cons]
      dsimp only
      rw [hsy]
      rw [List.enumFrom_cons, List.map_cons]
    | none =>
      dsimp only
      rw [savedOps_cons_chErr]
      rw [ih i fs d h]
      rw [List.filterMap_cons]
      dsimp only
      rw [hsy]

lemma synthLoop_no_pipe_events (synth : String → Option Waveform) :
    ∀ (chapters : List (String × String)) (i : Nat) (fs : FS),
      ∀ e ∈ (synthLoop synth chapters i fs).2,
        e ≠ Ev.epubError ∧ e ≠ Ev.concatError := by
  intro chapters
  induction chapters with
  | nil => intro i fs e he; simp [synthLoop] at he
  | cons c rest ih =>
    intro i fs e he
    obtain ⟨t, content⟩ := c
    rw [synthLoop] at he
    cases hsy : synth content with
    | some w =>
      rw [hsy] at he
      cases htm : fs.temp with
      | some d =>
        rw [htm] at he
        dsimp only at he
        rcases List.mem_cons.mp he with rfl | he2
        · exact ⟨by simp, by simp⟩
        · exact ih _ _ e he2
      | none =>
        rw [htm] at he
        dsimp only at he
        rcases List.mem_cons.mp he with rfl | he2
        · exact ⟨by simp, by simp⟩
        · exact ih _ _ e he2
    | none =>
      rw [hsy] at he
      dsimp only at he
      rcases List.mem_cons.mp he with rfl | he2
      · exact ⟨by simp, by simp⟩
      · exact ih _ _ e he2

lemma wipe_no_pipe_events (fs : FS) :
    ∀ e ∈ (wipeTempDir fs).2, e ≠ Ev.epubError ∧ e ≠ Ev.concatError := by
  obtain ⟨tmp, cw⟩ := fs
  intro e
  simp only [wipeTempDir]
  cases tmp with
  | none =>
    intro he
    simp at he
    subst he
    exact ⟨by simp, by simp⟩
  | some d =>
    dsimp only
    cases hc : concatDir "temp" d with
    | errorAt d2 =>
      dsimp only
      intro he
      simp at he
      subst he
      exact ⟨by simp, by simp⟩
    | noWavs d2 =>
      dsimp only
      intro he
      simp at he
      rcases he with rfl | rfl
      · exact ⟨by simp, by simp⟩
      · exact ⟨by simp, by simp⟩
    | ok d2 out =>
      dsimp only
      intro he
      simp at he
      subst he
      exact ⟨by simp, by simp⟩

lemma concatDir_noWav (dirStr : String) (d : Dir)
    (h : ∀ n ∈ d.map Prod.fst, pyEndsWith n.data (".wav".data) = false) :
    concatDir dirStr d = ConcatResult.noWavs d := by
  have hfil : (d.map Prod.fst).filter (fun n => pyEndsWith n.data (".wav".data)) = [] := by
    rw [List.filter_eq_nil_iff]
    intro a ha
    simp [h a ha]
  simp only [concatDir, wavFilesSorted, hfil]
  rfl


lemma codeOut_ne_direct (p : List Char × Waveform) (ps : List (List Char × Waveform)) :
    directConcatOut ((p :: ps).map Prod.snd) ≠
      some (FData.mp3Data ((roundTripSegs ps).foldl Seg.append
        (Seg.fromMp3Enc (Seg.fromWav p.2)))) := by
  intro h
  simp only [List.map_cons, directConcatOut, Option.some.injEq, FData.mp3Data.injEq] at h
  have h2 := congrArg Seg.leftLeaf h
  rw [leftLeaf_foldl, leftLeaf_foldl] at h2
  have e1 : (Seg.fromWav p.2).leftLeaf = Seg.fromWav p.2 := rfl
  have e2 : (Seg.fromMp3Enc (Seg.fromWav p.2)).leftLeaf =
      Seg.fromMp3Enc (Seg.fromWav p.2) := rfl
  rw [e1, e2] at h2
  exact Seg.noConfusion h2

lemma dirLookup_map_update (d : Dir) (n : String) (v : FData)
    (h : d.any (fun p => decide (p.1 = n)) = true) :
    dirLookup (d.map (fun p => if p.1 = n then (n, v) else p)) n = some v := by
  induction d with
  | nil => simp at h
  | cons q rest ih =>
    obtain ⟨qn, qv⟩ := q
    rw [List.map_cons]
    by_cases hq : (qn, qv).1 = n
    · rw [if_pos hq]
      exact dirLookup_cons_self n v _
    · rw [if_neg hq]
      have h2 : rest.any (fun p => decide (p.1 = n)) = true := by
        rw [List.any_cons] at h
        simp only [hq] at h
        simpa using h
      rw [dirLookup_cons_ne qn qv _ n hq]
      exact ih h2

lemma dirLookup_fsWrite_self (d : Dir) (n : String) (v : FData) :
    dirLookup (fsWrite d n v) n = some v := by
  by_cases h : d.any (fun p => decide (p.1 = n)) = true
  · rw [fsWrite, if_pos h]
    exact dirLookup_map_update d n v h
  · rw [fsWrite, if_neg h]
    have hno : ∀ p ∈ d, p.1 ≠ n := by
      intro p hp he
      apply h
      rw [List.any_eq_true]
      exact ⟨p, hp, by simp [he]⟩
    rw [dirLookup_append_right d _ n hno]
    exact dirLookup_cons_self n v []

/-! Theorems for the specification claims. -/

/-- Claim C1, counterexample: a book with two document entries carrying the
same heading title yields ONE extracted chapter (the dict merges them, the
later content winning), not one chapter per document entry. -/
theorem claim1_counterexample :
    readEpub ⟨[⟨"id1", true, ["Intro"], "A"⟩, ⟨"id2", true, ["Intro"], "B"⟩], ["T"]⟩ =
      some ([("Intro", "B")], "T") ∧
    (([⟨"id1", true, ["Intro"], "A"⟩, ⟨"id2", true, ["Intro"], "B"⟩] : List EpubItem).filter
      (fun it => it.isDocument)).length = 2 := by
  constructor
  · rfl
  · rfl

/-- Claim C1, amended: for every book whose metadata carries a title,
`read_epub` returns one chapter per DISTINCT chapter title: entries with
duplicate titles are merged into the first occurrence, so the number of
chapters equals the number of distinct titles of the document entries. -/
theorem claim1_amended (b : EpubBook) (t : String) (ts : List String)
    (h : b.dcTitles = t :: ts) :
    readEpub b = some (extractChapters b.items, t) ∧
    (extractChapters b.items).map Prod.fst = dedupFirst (docTitles b.items) ∧
    (extractChapters b.items).length = (dedupFirst (docTitles b.items)).length := by
  refine ⟨?_, extractChapters_keys b.items, ?_⟩
  · unfold readEpub
    rw [h]
  · have h2 := congrArg List.length (extractChapters_keys b.items)
    simpa using h2

/-- Claim C1, witness for the amended theorem. -/
theorem claim1_witness :
    (⟨[⟨"id1", true, ["Intro"], "A"⟩], ["T"]⟩ : EpubBook).dcTitles = "T" :: [] ∧
    (readEpub ⟨[⟨"id1", true, ["Intro"], "A"⟩], ["T"]⟩ =
      some (extractChapters [⟨"id1", true, ["Intro"], "A"⟩], "T") ∧
    (extractChapters [(⟨"id1", true, ["Intro"], "A"⟩ : EpubItem)]).map Prod.fst =
      dedupFirst (docTitles [⟨"id1", true, ["Intro"], "A"⟩]) ∧
    (extractChapters [(⟨"id1", true, ["Intro"], "A"⟩ : EpubItem)]).length =
      (dedupFirst (docTitles [⟨"id1", true, ["Intro"], "A"⟩])).length) :=
  ⟨rfl, claim1_amended ⟨[⟨"id1", true, ["Intro"], "A"⟩], ["T"]⟩ "T" [] rfl⟩

/-- Claim C2, counterexample: a run whose extraction fails but whose assembly
salvages a pre-existing artifact into a usable output still exits 1, against
the claimed zero exit. -/
theorem claim2_counterexample :
    (runMain (.error ()) (fun _ => none)
      ⟨some [("chapter_1.wav", FData.wavData [0])], []⟩).2.1 = 1 ∧
    dirLookup (runMain (.error ()) (fun _ => none)
      ⟨some [("chapter_1.wav", FData.wavData [0])], []⟩).1.cwd "audiobook.mp3" =
      some (FData.mp3Data (Seg.fromMp3Enc (Seg.fromWav [0]))) := by
  constructor
  · decide
  · decide

/-- Claim C2, amended: the process exits zero if and only if the extraction
phase raised no uncaught exception AND the assembly call raised none; the
number of chapters synthesized and the number of artifacts assembled play no
role in the exit code. -/
theorem claim2_amended (ext : Except Unit (List (String × String) × String))
    (synth : String → Option Waveform) (fs0 : FS) :
    (runMain ext synth fs0).2.1 = 0 ↔
      (Ev.epubError ∉ (runMain ext synth fs0).2.2 ∧
       Ev.concatError ∉ (runMain ext synth fs0).2.2) := by
  cases ext with
  | error e =>
    simp only [runMain]
    obtain ⟨tmp, cw⟩ := fs0
    dsimp only
    cases tmp with
    | none => simp
    | some d =>
      dsimp only
      cases hc : concatDir "temp" d with
      | errorAt d2 => dsimp only; simp
      | noWavs d2 => dsimp only; simp
      | ok d2 out => dsimp only; simp
  | ok pr =>
    obtain ⟨chapters, title⟩ := pr
    have hW := wipe_no_pipe_events fs0
    have hS := synthLoop_no_pipe_events synth chapters 1 (wipeTempDir fs0).1
    have hW1 : Ev.epubError ∉ (wipeTempDir fs0).2 := fun hx => (hW _ hx).1 rfl
    have hW2 : Ev.concatError ∉ (wipeTempDir fs0).2 := fun hx => (hW _ hx).2 rfl
    have hS1 : Ev.epubError ∉ (synthLoop synth chapters 1 (wipeTempDir fs0).1).2 :=
      fun hx => (hS _ hx).1 rfl
    have hS2 : Ev.concatError ∉ (synthLoop synth chapters 1 (wipeTempDir fs0).1).2 :=
      fun hx => (hS _ hx).2 rfl
    simp only [runMain]
    cases htmp : (synthLoop synth chapters 1 (wipeTempDir fs0).1).1.temp with
    | none => simp [hW1, hW2, hS1, hS2]
    | some d =>
      dsimp only
      cases hc : concatDir "temp" d with
      | errorAt d2 => dsimp only; simp [hW1, hW2, hS1, hS2]
      | noWavs d2 => dsimp only; simp [hW1, hW2, hS1, hS2]
      | ok d2 out => dsimp only; simp [hW1, hW2, hS1, hS2]

lemma cn1 : "chapter_" ++ toString 1 ++ ".wav" = "chapter_1.wav" := rfl

lemma cn2 : "chapter_" ++ toString 2 ++ ".wav" = "chapter_2.wav" := rfl

lemma cn3 : "chapter_" ++ toString 3 ++ ".wav" = "chapter_3.wav" := rfl

lemma cn4 : "chapter_" ++ toString 4 ++ ".wav" = "chapter_4.wav" := rfl

/-- Claim C3: in a five-chapter run where synthesis fails on exactly the
third chapter, the run is not aborted, the failure is logged with index 3
and no other chapter error is logged, the run exits zero, and the assembled
track holds exactly the waveforms of chapters 1, 2, 4, 5 in that order. -/
theorem claim3_failed_chapter_skipped (w1 w2 w4 w5 : Waveform) :
    (runMain (.ok (chaps5, "Book")) (synth5 w1 w2 w4 w5) ⟨some [], []⟩).2.1 = 0 ∧
    Ev.chapterError 3 ∈ (runMain (.ok (chaps5, "Book")) (synth5 w1 w2 w4 w5) ⟨some [], []⟩).2.2 ∧
    (∀ i, i ≠ 3 →
      Ev.chapterError i ∉ (runMain (.ok (chaps5, "Book")) (synth5 w1 w2 w4 w5) ⟨some [], []⟩).2.2) ∧
    (dirLookup (runMain (.ok (chaps5, "Book")) (synth5 w1 w2 w4 w5) ⟨some [], []⟩).1.cwd
      "Book.mp3").map fdataSources = some [w1, w2, w4, w5] := by
  have hr : runMain (.ok (chaps5, "Book")) (synth5 w1 w2 w4 w5) ⟨some [], []⟩ =
    (⟨some
      [("chapter_1.wav", FData.wavData w1), ("chapter_2.wav", FData.wavData w2),
       ("chapter_3.wav", FData.wavData w4), ("chapter_4.wav", FData.wavData w5),
       ("chapter_1.mp3", FData.mp3Data (Seg.fromWav w1)),
       ("chapter_2.mp3", FData.mp3Data (Seg.fromWav w2)),
       ("chapter_3.mp3", FData.mp3Data (Seg.fromWav w4)),
       ("chapter_4.mp3", FData.mp3Data (Seg.fromWav w5))],
      [("Book.mp3", FData.mp3Data
        (Seg.append (Seg.append (Seg.append (Seg.fromMp3Enc (Seg.fromWav w1))
          (Seg.fromMp3Enc (Seg.fromWav w2))) (Seg.fromMp3Enc (Seg.fromWav w4)))
          (Seg.fromMp3Enc (Seg.fromWav w5))))]⟩,
      0,
      [Ev.noWavFiles, Ev.wipeDone,
       Ev.saved "chapter_1.wav" w1, Ev.saved "chapter_2.wav" w2,
       Ev.chapterError 3,
       Ev.saved "chapter_3.wav" w4, Ev.saved "chapter_4.wav" w5,
       Ev.created "Book.mp3"]) := by
    simp [runMain, wipeTempDir, synthLoop, synth5, chaps5, cn1, cn2, cn3, cn4, concatDir,
      wavFilesSorted, convertWavs, readSegs, sumSegs, fsWrite, dirLookup,
      stableSort, insertStable, replWav, searchChapter, matchChapterAt, pyEndsWith,
      extract_chapter_number, optLt, lexLt, digitsVal]
  refine ⟨by rw [hr], by rw [hr]; simp, ?_, by rw [hr]; rfl⟩
  intro i hi
  rw [hr]
  simp [hi]

/-- Claim C4, counterexample: with two chapters where the first synthesis
fails and the second succeeds, the only artifact written is named
`chapter_1.wav` although the chapter it was synthesized from is the second
document entry, so the parsed index 1 is not the traversal position 2. -/
theorem claim4_counterexample :
    savedOps (synthLoop (fun c => if c = "c2" then some [5] else none)
      [("t1", "c1"), ("t2", "c2")] 1 ⟨some [], []⟩).2 = [("chapter_1.wav", [5])] ∧
    extract_chapter_number "chapter_1.wav" = some 1 ∧
    (fun c => if c = "c2" then some ([5] : Waveform) else none) "c1" = none ∧
    [("t1", "c1"), ("t2", "c2")].indexOf ("t2", "c2") + 1 = 2 := by
  refine ⟨by decide, by decide, by decide, by decide⟩

/-- Claim C4, amended: artifacts are named `chapter_<k>.wav` where `k` is
the 1-based rank of the chapter among the SUCCESSFULLY synthesized chapters
(the loop counter advances only after a successful save), not its traversal
position over the document entries; the two agree only while no earlier
chapter has failed. -/
theorem claim4_amended (synth : String → Option Waveform)
    (chapters : List (String × String)) (fs : FS) (d : Dir) (h : fs.temp = some d) :
    savedOps (synthLoop synth chapters 1 fs).2 =
      (List.enumFrom 1 (chapters.filterMap (fun c => synth c.2))).map
        (fun q => ("chapter_" ++ toString q.1 ++ ".wav", q.2)) :=
  synthLoop_savedOps synth chapters 1 fs d h

/-- Claim C4, witness for the amended theorem. -/
theorem claim4_witness :
    (⟨some [], []⟩ : FS).temp = some [] ∧
    savedOps (synthLoop (fun c => if c = "c2" then some [5] else none)
      [("t1", "c1"), ("t2", "c2")] 1 ⟨some [], []⟩).2 =
      (List.enumFrom 1 ([("t1", "c1"), ("t2", "c2")].filterMap
        (fun c => (fun c2 => if c2 = "c2" then some ([5] : Waveform) else none) c.2))).map
        (fun q => ("chapter_" ++ toString q.1 ++ ".wav", q.2)) :=
  ⟨rfl, claim4_amended (fun c => if c = "c2" then some [5] else none)
    [("t1", "c1"), ("t2", "c2")] ⟨some [], []⟩ [] rfl⟩

/-- Claim C5, counterexample: on a one-artifact directory the assembly first
re-encodes the WAV into an individual MP3 intermediate (written into the
directory) and the final output decodes THAT intermediate, unlike the
direct-concatenation output the claim describes. -/
theorem claim5_counterexample :
    concatDir "temp" [("chapter_1.wav", FData.wavData [7])] =
      ConcatResult.ok
        [("chapter_1.wav", FData.wavData [7]),
         ("chapter_1.mp3", FData.mp3Data (Seg.fromWav [7]))]
        (FData.mp3Data (Seg.fromMp3Enc (Seg.fromWav [7]))) ∧
    directConcatOut [[7]] = some (FData.mp3Data (Seg.fromWav [7])) ∧
    (FData.mp3Data (Seg.fromMp3Enc (Seg.fromWav [7])) ≠
      FData.mp3Data (Seg.fromWav [7])) := by
  refine ⟨by decide, by decide, by decide⟩

/-- Claim C5, amended: for every non-empty artifact set assembly re-encodes
each WAV artifact individually into an MP3 intermediate next to it, decodes
those intermediates, concatenates them in ascending chapter-index order and
encodes the concatenation once more into the output — which therefore
differs from the direct single-encode output the spec describes. -/
theorem claim5_amended (dirStr : String) (p : List Char × Waveform)
    (ps : List (List Char × Waveform))
    (hdig : ∀ q ∈ p :: ps, q.1 ≠ [] ∧ ∀ c ∈ q.1, c.isDigit = true)
    (hinc : List.Pairwise (fun a b => digitsVal a.1 < digitsVal b.1) (p :: ps)) :
    concatDir dirStr (canonDir (p :: ps)) =
      ConcatResult.ok (canonDir (p :: ps) ++ mp3Sides (p :: ps))
        (FData.mp3Data ((roundTripSegs ps).foldl Seg.append
          (Seg.fromMp3Enc (Seg.fromWav p.2)))) ∧
    directConcatOut ((p :: ps).map Prod.snd) ≠
      some (FData.mp3Data ((roundTripSegs ps).foldl Seg.append
        (Seg.fromMp3Enc (Seg.fromWav p.2)))) :=
  ⟨concatDir_canon dirStr p ps hdig hinc, codeOut_ne_direct p ps⟩

/-- Claim C5, witness for the amended theorem. -/
theorem claim5_witness :
    ((∀ q ∈ (['1'], ([0] : Waveform)) :: [(['2'], ([1] : Waveform))],
        q.1 ≠ [] ∧ ∀ c ∈ q.1, c.isDigit = true) ∧
      List.Pairwise (fun a b => digitsVal a.1 < digitsVal b.1)
        ((['1'], ([0] : Waveform)) :: [(['2'], ([1] : Waveform))])) ∧
    (concatDir "temp" (canonDir ((['1'], [0]) :: [(['2'], [1])])) =
      ConcatResult.ok
        (canonDir ((['1'], [0]) :: [(['2'], [1])]) ++ mp3Sides ((['1'], [0]) :: [(['2'], [1])]))
        (FData.mp3Data ((roundTripSegs [(['2'], [1])]).foldl Seg.append
          (Seg.fromMp3Enc (Seg.fromWav [0])))) ∧
     directConcatOut (((['1'], [0]) :: [(['2'], [1])]).map Prod.snd) ≠
      some (FData.mp3Data ((roundTripSegs [(['2'], [1])]).foldl Seg.append
        (Seg.fromMp3Enc (Seg.fromWav [0]))))) :=
  ⟨⟨by decide, by decide⟩,
    claim5_amended "temp" (['1'], [0]) [(['2'], [1])] (by decide) (by decide)⟩

/-- Claim C6, counterexample: a directory holding `chapter_1.wav` and a
non-matching `foo.wav` makes the concatenation raise at the MP3 sort key
(after the intermediates were written) instead of sorting the non-matching
name last. -/
theorem claim6_counterexample :
    concatDir "temp" [("chapter_1.wav", FData.wavData [0]), ("foo.wav", FData.wavData [1])] =
      ConcatResult.errorAt
        [("chapter_1.wav", FData.wavData [0]), ("foo.wav", FData.wavData [1]),
         ("chapter_1.mp3", FData.mp3Data (Seg.fromWav [0])),
         ("foo.mp3", FData.mp3Data (Seg.fromWav [1]))] := by
  decide

/-- Claim C6, amended: the initial wav listing does sort numerically (1, 2,
3, 10, not lexicographically) with non-matching names last and without an
error, and is always sorted with respect to the parsed keys; but the MP3
ordering used for the actual concatenation raises on a non-matching name
instead of sorting it last. -/
theorem claim6_amended :
    wavFilesSorted "temp" ["chapter_3.wav", "chapter_1.wav", "chapter_10.wav", "chapter_2.wav"] =
      ["temp/chapter_1.wav", "temp/chapter_2.wav", "temp/chapter_3.wav",
       "temp/chapter_10.wav"] ∧
    wavFilesSorted "temp"
      ["chapter_3.wav", "chapter_1.wav", "chapter_10.wav", "chapter_2.wav", "foo.wav"] =
      ["temp/chapter_1.wav", "temp/chapter_2.wav", "temp/chapter_3.wav", "temp/chapter_10.wav",
       "temp/foo.wav"] ∧
    extract_chapter_number "temp/foo.wav" = none ∧
    (∀ (dirStr : String) (names : List String),
      List.Pairwise (fun a b =>
        optLt (extract_chapter_number b) (extract_chapter_number a) = false)
        (wavFilesSorted dirStr names)) ∧
    concatDir "temp" [("chapter_1.wav", FData.wavData [0]), ("bar.wav", FData.wavData [1])] =
      ConcatResult.errorAt
        [("chapter_1.wav", FData.wavData [0]), ("bar.wav", FData.wavData [1]),
         ("chapter_1.mp3", FData.mp3Data (Seg.fromWav [0])),
         ("bar.mp3", FData.mp3Data (Seg.fromWav [1]))] := by
  refine ⟨by decide, by decide, by decide, ?_, by decide⟩
  intro dirStr names
  simp only [wavFilesSorted]
  exact stableSort_sorted
    (fun a b => optLt (extract_chapter_number a) (extract_chapter_number b))
    (fun a b c h1 h2 => optLt_trans (extract_chapter_number a) (extract_chapter_number b)
      (extract_chapter_number c) h1 h2)
    (fun a b h => optLt_asym (extract_chapter_number a) (extract_chapter_number b) h)
    _

lemma errorRun_events (synth : String → Option Waveform) (fs0 : FS) :
    ∀ e ∈ (runMain (.error ()) synth fs0).2.2,
      e = Ev.epubError ∨ e = Ev.concatError ∨ e = Ev.noWavFiles ∨ ∃ n, e = Ev.created n := by
  obtain ⟨tmp, cw⟩ := fs0
  intro e
  simp only [runMain]
  dsimp only
  cases tmp with
  | none =>
    intro he
    simp at he
    rcases he with rfl | rfl
    · exact Or.inl rfl
    · exact Or.inr (Or.inl rfl)
  | some d =>
    dsimp only
    cases hc : concatDir "temp" d with
    | errorAt d2 =>
      dsimp only
      intro he
      simp at he
      rcases he with rfl | rfl
      · exact Or.inl rfl
      · exact Or.inr (Or.inl rfl)
    | noWavs d2 =>
      dsimp only
      intro he
      simp at he
      rcases he with rfl | rfl | rfl
      · exact Or.inl rfl
      · exact Or.inr (Or.inr (Or.inl rfl))
      · exact Or.inr (Or.inr (Or.inr ⟨_, rfl⟩))
    | ok d2 out =>
      dsimp only
      intro he
      simp at he
      rcases he with rfl | rfl
      · exact Or.inl rfl
      · exact Or.inr (Or.inr (Or.inr ⟨_, rfl⟩))

/-- Claim C7: when extraction fails, the run skips synthesis entirely (no
saves, no chapter errors), still attempts assembly over whatever the working
directory already holds, and uses the default output name audiobook.mp3. -/
theorem claim7_salvage (synth : String → Option Waveform) (tmp0 : Option Dir) (cw : Dir)
    (d d2 : Dir) (out : FData)
    (h : tmp0 = some d) (hc : concatDir "temp" d = ConcatResult.ok d2 out) :
    runMain (.error ()) synth ⟨tmp0, cw⟩ =
      (⟨some d2, fsWrite cw "audiobook.mp3" out⟩, 1,
        [Ev.epubError, Ev.created "audiobook.mp3"]) ∧
    savedOps (runMain (.error ()) synth ⟨tmp0, cw⟩).2.2 = [] ∧
    (∀ i, Ev.chapterError i ∉ (runMain (.error ()) synth ⟨tmp0, cw⟩).2.2) := by
  subst h
  have hr : runMain (.error ()) synth ⟨some d, cw⟩ =
      (⟨some d2, fsWrite cw "audiobook.mp3" out⟩, 1,
        [Ev.epubError, Ev.created "audiobook.mp3"]) := by
    simp only [runMain]
    dsimp only
    rw [hc]
    rfl
  refine ⟨hr, ?_, ?_⟩
  · rw [hr]
    rfl
  · intro i
    rw [hr]
    simp

/-- Claim C7, witness. -/
theorem claim7_witness :
    (some [("chapter_1.wav", FData.wavData [2])] : Option Dir) =
      some [("chapter_1.wav", FData.wavData [2])] ∧
    concatDir "temp" [("chapter_1.wav", FData.wavData [2])] =
      ConcatResult.ok
        [("chapter_1.wav", FData.wavData [2]),
         ("chapter_1.mp3", FData.mp3Data (Seg.fromWav [2]))]
        (FData.mp3Data (Seg.fromMp3Enc (Seg.fromWav [2]))) ∧
    (runMain (.error ()) (fun _ => none)
        ⟨some [("chapter_1.wav", FData.wavData [2])], []⟩ =
      (⟨some [("chapter_1.wav", FData.wavData [2]),
              ("chapter_1.mp3", FData.mp3Data (Seg.fromWav [2]))],
        fsWrite [] "audiobook.mp3" (FData.mp3Data (Seg.fromMp3Enc (Seg.fromWav [2])))⟩, 1,
        [Ev.epubError, Ev.created "audiobook.mp3"]) ∧
    savedOps (runMain (.error ()) (fun _ => none)
        ⟨some [("chapter_1.wav", FData.wavData [2])], []⟩).2.2 = [] ∧
    (∀ i, Ev.chapterError i ∉ (runMain (.error ()) (fun _ => none)
        ⟨some [("chapter_1.wav", FData.wavData [2])], []⟩).2.2)) :=
  ⟨rfl, by decide,
    claim7_salvage (fun _ => none) (some [("chapter_1.wav", FData.wavData [2])]) [] _ _ _
      rfl (by decide)⟩

/-- Claim C8, counterexample: a successful one-chapter run ends with the
artifact `chapter_1.wav` (and its MP3 intermediate) still inside the working
directory — no cleanup happens at run end. -/
theorem claim8_counterexample :
    (runMain (.ok ([("t", "c")], "B")) (fun _ => some [3]) ⟨some [], []⟩).1.temp =
      some [("chapter_1.wav", FData.wavData [3]),
            ("chapter_1.mp3", FData.mp3Data (Seg.fromWav [3]))] ∧
    (runMain (.ok ([("t", "c")], "B")) (fun _ => some [3]) ⟨some [], []⟩).2.1 = 0 := by
  constructor
  · decide
  · decide

/-- Claim C8, amended: the wipe runs once at the START of the run and only
when extraction succeeded; no cleanup happens at run end, so the per-chapter
artifacts persist after a successful run, and a run with failed extraction
never wipes at all. -/
theorem claim8_amended (w : Waveform) (synth : String → Option Waveform) (c : String)
    (cw : Dir) (h : synth c = some w) :
    (runMain (.ok ([("t", c)], "B")) synth ⟨some [], cw⟩ =
      (⟨some [("chapter_1.wav", FData.wavData w),
              ("chapter_1.mp3", FData.mp3Data (Seg.fromWav w))],
        fsWrite cw "B.mp3" (FData.mp3Data (Seg.fromMp3Enc (Seg.fromWav w)))⟩,
       0,
       [Ev.noWavFiles, Ev.wipeDone, Ev.saved "chapter_1.wav" w, Ev.created "B.mp3"])) ∧
    (∀ (synth2 : String → Option Waveform) (fs0 : FS),
      Ev.wipeDone ∉ (runMain (.error ()) synth2 fs0).2.2 ∧
      Ev.dirMissing ∉ (runMain (.error ()) synth2 fs0).2.2) := by
  constructor
  · have hloop : synthLoop synth [("t", c)] 1 ⟨some [], cw⟩ =
        (⟨some [("chapter_1.wav", FData.wavData w)], cw⟩, [Ev.saved "chapter_1.wav" w]) := by
      rw [synthLoop, h]
      dsimp only
      rw [cn1]
      rfl
    simp [runMain, wipeTempDir, hloop, concatDir, wavFilesSorted, convertWavs,
      readSegs, sumSegs, fsWrite, dirLookup, stableSort, insertStable, replWav,
      searchChapter, matchChapterAt, pyEndsWith, extract_chapter_number, optLt, lexLt,
      digitsVal]
    rw [hloop]
  · intro synth2 fs0
    constructor
    · intro hmem
      rcases errorRun_events synth2 fs0 _ hmem with he | he | he | ⟨n, he⟩ <;> simp at he
    · intro hmem
      rcases errorRun_events synth2 fs0 _ hmem with he | he | he | ⟨n, he⟩ <;> simp at he

/-- Claim C8, witness for the amended theorem. -/
theorem claim8_witness :
    (fun _ => some ([3] : Waveform)) "c" = some [3] ∧
    ((runMain (.ok ([("t", "c")], "B")) (fun _ => some [3]) ⟨some [], []⟩ =
      (⟨some [("chapter_1.wav", FData.wavData [3]),
              ("chapter_1.mp3", FData.mp3Data (Seg.fromWav [3]))],
        fsWrite [] "B.mp3" (FData.mp3Data (Seg.fromMp3Enc (Seg.fromWav [3])))⟩,
       0,
       [Ev.noWavFiles, Ev.wipeDone, Ev.saved "chapter_1.wav" [3], Ev.created "B.mp3"])) ∧
    (∀ (synth2 : String → Option Waveform) (fs0 : FS),
      Ev.wipeDone ∉ (runMain (.error ()) synth2 fs0).2.2 ∧
      Ev.dirMissing ∉ (runMain (.error ()) synth2 fs0).2.2)) :=
  ⟨rfl, claim8_amended [3] (fun _ => some [3]) "c" [] rfl⟩

/-- Claim C9: with no `.wav` file in the (existing) working directory, the
assembly reports the nothing-to-assemble outcome, leaves the directory as it
is, performs no write into the working directory of the process, and the run
still exits zero. -/
theorem claim9_nothing_to_assemble (dirStr : String) (d : Dir)
    (h : ∀ n ∈ d.map Prod.fst, pyEndsWith n.data (".wav".data) = false)
    (synth : String → Option Waveform) (title : String) (cw : Dir) :
    concatDir dirStr d = ConcatResult.noWavs d ∧
    (runMain (.ok ([], title)) synth ⟨some d, cw⟩).2.1 = 0 ∧
    (runMain (.ok ([], title)) synth ⟨some d, cw⟩).1.cwd = cw ∧
    Ev.noWavFiles ∈ (runMain (.ok ([], title)) synth ⟨some d, cw⟩).2.2 := by
  have hcd := concatDir_noWav dirStr d h
  have hcd2 := concatDir_noWav "temp" d h
  have hce : concatDir "temp" ([] : Dir) = ConcatResult.noWavs [] := by decide
  have hr : runMain (.ok ([], title)) synth ⟨some d, cw⟩ =
      (⟨some [], cw⟩, 0,
        [Ev.noWavFiles, Ev.wipeDone, Ev.noWavFiles,
         Ev.created ((if title = "" then "audiobook" else title) ++ ".mp3")]) := by
    simp only [runMain, wipeTempDir]
    rw [hcd2]
    dsimp only
    rw [synthLoop]
    dsimp only
    rw [hce]
    rfl
  refine ⟨hcd, by rw [hr], by rw [hr], by rw [hr]; simp⟩

/-- Claim C9, witness. -/
theorem claim9_witness :
    (∀ n ∈ ([("notes.txt", FData.otherData)] : Dir).map Prod.fst,
      pyEndsWith n.data (".wav".data) = false) ∧
    (concatDir "temp" [("notes.txt", FData.otherData)] =
      ConcatResult.noWavs [("notes.txt", FData.otherData)] ∧
    (runMain (.ok ([], "B")) (fun _ => none)
      ⟨some [("notes.txt", FData.otherData)], []⟩).2.1 = 0 ∧
    (runMain (.ok ([], "B")) (fun _ => none)
      ⟨some [("notes.txt", FData.otherData)], []⟩).1.cwd = [] ∧
    Ev.noWavFiles ∈ (runMain (.ok ([], "B")) (fun _ => none)
      ⟨some [("notes.txt", FData.otherData)], []⟩).2.2) :=
  ⟨by decide, claim9_nothing_to_assemble "temp" [("notes.txt", FData.otherData)]
    (by decide) (fun _ => none) "B" []⟩

/-- Claim C10: wiping an existing working directory that holds chapter WAV
artifacts first concatenates them all and writes the result to
`tempfile_output.mp3` in the current working directory, then deletes every
file of the directory; the exported file survives the wipe. -/
theorem claim10_wipe_writes_output (p : List Char × Waveform)
    (ps : List (List Char × Waveform)) (cw : Dir)
    (hdig : ∀ q ∈ p :: ps, q.1 ≠ [] ∧ ∀ c ∈ q.1, c.isDigit = true)
    (hinc : List.Pairwise (fun a b => digitsVal a.1 < digitsVal b.1) (p :: ps)) :
    wipeTempDir ⟨some (canonDir (p :: ps)), cw⟩ =
      (⟨some [], fsWrite cw "tempfile_output.mp3"
        (FData.mp3Data ((roundTripSegs ps).foldl Seg.append
          (Seg.fromMp3Enc (Seg.fromWav p.2))))⟩, [Ev.wipeDone]) ∧
    dirLookup (wipeTempDir ⟨some (canonDir (p :: ps)), cw⟩).1.cwd "tempfile_output.mp3" =
      some (FData.mp3Data ((roundTripSegs ps).foldl Seg.append
        (Seg.fromMp3Enc (Seg.fromWav p.2)))) ∧
    (wipeTempDir ⟨some (canonDir (p :: ps)), cw⟩).1.temp = some [] := by
  have hc := concatDir_canon "temp" p ps hdig hinc
  have hr : wipeTempDir ⟨some (canonDir (p :: ps)), cw⟩ =
      (⟨some [], fsWrite cw "tempfile_output.mp3"
        (FData.mp3Data ((roundTripSegs ps).foldl Seg.append
          (Seg.fromMp3Enc (Seg.fromWav p.2))))⟩, [Ev.wipeDone]) := by
    simp only [wipeTempDir]
    rw [hc]
  refine ⟨hr, ?_, by rw [hr]⟩
  rw [hr]
  exact dirLookup_fsWrite_self cw _ _

/-- Claim C10, witness. -/
theorem claim10_witness :
    (∀ q ∈ (['1'], ([4] : Waveform)) :: [(['2'], ([6] : Waveform))],
      q.1 ≠ [] ∧ ∀ c ∈ q.1, c.isDigit = true) ∧
    List.Pairwise (fun a b => digitsVal a.1 < digitsVal b.1)
      ((['1'], ([4] : Waveform)) :: [(['2'], ([6] : Waveform))]) ∧
    (wipeTempDir ⟨some (canonDir ((['1'], [4]) :: [(['2'], [6])])), []⟩ =
      (⟨some [], fsWrite [] "tempfile_output.mp3"
        (FData.mp3Data ((roundTripSegs [(['2'], [6])]).foldl Seg.append
          (Seg.fromMp3Enc (Seg.fromWav [4]))))⟩, [Ev.wipeDone]) ∧
    dirLookup (wipeTempDir ⟨some (canonDir ((['1'], [4]) :: [(['2'], [6])])), []⟩).1.cwd
      "tempfile_output.mp3" =
      some (FData.mp3Data ((roundTripSegs [(['2'], [6])]).foldl Seg.append
        (Seg.fromMp3Enc (Seg.fromWav [4])))) ∧
    (wipeTempDir ⟨some (canonDir ((['1'], [4]) :: [(['2'], [6])])), []⟩).1.temp = some []) :=
  ⟨by decide, by decide,
    claim10_wipe_writes_output (['1'], [4]) [(['2'], [6])] [] (by decide) (by decide)⟩

end FastAudiobook
